import Mathlib

/-!
Package sigctx: a context cancelled by its parent, by the returned cancel function, or by an os signal

A shallow embedding of `sigctx.WithCancel` (src/sigctx.go). The caller, the
operating system and the watcher goroutine act on one shared state; each atomic
action of one of them is a function on that state, and an execution is a list
of events folded over the state returned by `WithCancel`.

Library behaviour the source relies on, as documented by the Go standard library:

* `context.WithCancel(parent)`: the child is done as soon as the parent is done
  (at once when the parent is done already) or when its cancel function is
  called; cancelling a child never cancels the parent.
* `signal.Notify(c, sigs...)`: relays incoming signals to `c` without blocking
  (a signal is dropped when `c` has no free buffer slot); with no signals given,
  all incoming signals are relayed, otherwise just the given ones.
* `signal.Stop(c)`: no signal is relayed to `c` afterwards.
* `atomic.AddInt32`: two's complement addition on 32 bits.
* `Log.Print`: `Log` is a package variable of the interface type `Logger`. Its
  default `new(log.Logger)` is a zero `log.Logger`, whose writer is nil: its
  `Print` panics before anything is written. The model has this default and a
  `Logger` whose `Print` takes the text and returns.
* A panic in a goroutine runs the goroutine's deferred calls and then ends the
  process.
-/

namespace Sigctx

/-- An `os.Signal`: its number and the text its `String` method returns
(what `%v` prints). -/
structure Signal where
  num : Nat
  name : String
deriving DecidableEq, Repr

/-- The two deferred calls of the watcher goroutine. -/
inductive TeardownOp where
  | stop
  | close
deriving DecidableEq, Repr

/-- Whether the watcher goroutine is blocked in its `select` or has returned. -/
inductive Watcher where
  | waiting
  | exited
deriving DecidableEq, Repr

/-- The place where the watcher's function body ended; `printPanic` is a
panic inside `Log.Print`. -/
inductive ExitPath where
  | parentReturn
  | ctxGuardReturn
  | ctxFallThrough
  | sigFirst
  | sigAbortReturn
  | sigPlain
  | printPanic
deriving DecidableEq, Repr

/-- The values of the package variable `Log` the model knows: `stdZero` is the
default `new(log.Logger)`, whose `Print` panics on its nil writer; `printing` is
a `Logger` whose `Print` takes the text and returns. -/
inductive Logger where
  | stdZero
  | printing
deriving DecidableEq, Repr

/-- The package variables `TerminateLimit` and `Log`. -/
structure Vars where
  TerminateLimit : Int
  Log : Logger
deriving DecidableEq, Repr

/-- The package variables as declared: `TerminateLimit = 1024` and
`Log Logger = new(log.Logger)`. -/
def defaultVars : Vars := { TerminateLimit := 1024, Log := Logger.stdZero }

/-- The cases of the watcher's `select`. -/
inductive Branch where
  | parentDone
  | ctxDone
  | sig
deriving DecidableEq, Repr

/-- The state shared by the caller, the signal package and the watcher.
`selects`, `received`, `teardown`, `exitPath` and `panicked` only record what was
executed. -/
structure State where
  /-- Whether `parent.Done()` is closed. -/
  parentDone : Bool
  /-- Whether `ctx.Done()` is closed. -/
  ctxDone : Bool
  /-- The variable `done`, an `int32`. -/
  done : Int
  /-- The signals given to `signal.Notify`. -/
  sigs : List Signal
  /-- Whether `sigCh` is registered with the signal package. -/
  notified : Bool
  /-- The buffer of `sigCh` (capacity 1), oldest first. -/
  sigCh : List Signal
  /-- Whether `sigCh` is closed. -/
  chClosed : Bool
  /-- The variable `retries` of the watcher, an `int`. -/
  retries : Int
  /-- The lines printed through `Log`: the texts of the calls of `Log.Print`
  that returned, oldest first. -/
  log : List String
  /-- Whether the watcher goroutine panicked (the process ends after its
  deferred calls). -/
  panicked : Bool
  /-- Whether the watcher goroutine still waits. -/
  watcher : Watcher
  /-- Number of `select` cases the watcher has taken. -/
  selects : Nat
  /-- The signals the watcher has read from `sigCh`, oldest first. -/
  received : List Signal
  /-- The deferred calls that have run, oldest first. -/
  teardown : List TeardownOp
  /-- Where the watcher's function body ended, once it has. -/
  exitPath : Option ExitPath
deriving DecidableEq, Repr

/-- Capacity of `sigCh`: `make(chan os.Signal, 1)`. -/
def sigChCap : Nat := 1

/-- Two's complement wrap-around of an `int32`. -/
def wrapInt32 (x : Int) : Int := (x + 2 ^ 31) % 2 ^ 32 - 2 ^ 31

/-- The function `atomic.AddInt32` on the value it updates. -/
def atomicAddInt32 (v delta : Int) : Int := wrapInt32 (v + delta)

/-- The inner `cancel` from `context.WithCancel(parent)`: closes `ctx.Done()`. -/
def cancel (s : State) : State := { s with ctxDone := true }

/-- The signals that `signal.Notify(sigCh, sigs...)` relays: all of them when
`sigs` is empty, otherwise the ones whose number is listed. -/
def relays (sigs : List Signal) (sg : Signal) : Bool :=
  sigs.isEmpty || sigs.any (fun t => t.num == sg.num)

/-- The text `fmt.Sprintf("received %v, graceful shutdown", sig)`. -/
def msgGraceful (sg : Signal) : String :=
  "received " ++ sg.name ++ ", graceful shutdown"

/-- The text `fmt.Sprintf("received %v, signals %d times, aborting", sig, retries)`. -/
def msgAbort (sg : Signal) (retries : Int) : String :=
  "received " ++ sg.name ++ ", signals " ++ toString retries ++ " times, aborting"

/-- The text `fmt.Sprintf("received %v", sig)`. -/
def msgPlain (sg : Signal) : String :=
  "received " ++ sg.name

/-- The function `WithCancel`, up to its `return`: the derived context (done
at once when the parent is), the subscription of `sigCh`, `done = 0`, and the
watcher goroutine started and not yet scheduled. -/
def WithCancel (parentDone : Bool) (sigs : List Signal) : State :=
  { parentDone := parentDone
    ctxDone := parentDone
    done := 0
    sigs := sigs
    notified := true
    sigCh := []
    chClosed := false
    retries := 0
    log := []
    panicked := false
    watcher := Watcher.waiting
    selects := 0
    received := []
    teardown := []
    exitPath := none }

/-- The cancel function returned by `WithCancel`:
`atomic.AddInt32(&done, 1); cancel()`. -/
def cancelFn (s : State) : State :=
  cancel { s with done := atomicAddInt32 s.done 1 }

/-- The function `cancelFn` invoked `n` times in a row. -/
def cancelN : Nat → State → State
  | 0, s => s
  | n + 1, s => cancelFn (cancelN n s)

/-- The caller (or anything else outside this package) cancels the parent:
the parent is done, and with it the derived context, its child. -/
def parentCancel (s : State) : State :=
  { s with parentDone := true, ctxDone := true }

/-- The process receives signal `sg`: the signal package relays it to `sigCh`
when `sigCh` is registered, `sg` is one of the relayed signals and the buffer
has a free slot; otherwise nothing reaches the channel. -/
def deliver (sg : Signal) (s : State) : State :=
  if s.notified && relays s.sigs sg && decide (s.sigCh.length < sigChCap) then
    { s with sigCh := s.sigCh ++ [sg] }
  else s

/-- Whether a case of the watcher's `select` can proceed. -/
def ready (s : State) : Branch → Bool
  | Branch.parentDone => s.parentDone
  | Branch.ctxDone => s.ctxDone
  | Branch.sig => !s.sigCh.isEmpty

/-- The call `Log.Print(text)` that ends a switch arm of the signal case. With
a `Logger` whose `Print` returns, the line is printed and the arm ends at `path`;
with the zero `log.Logger` the call panics and nothing is printed. -/
def logPrint (Log : Logger) (text : String) (path : ExitPath) (s : State) : State :=
  match Log with
  | Logger.printing => { s with log := s.log ++ [text], exitPath := some path }
  | Logger.stdZero => { s with panicked := true, exitPath := some ExitPath.printPanic }

/-- The body of the `select` case taken by the watcher. -/
def selectCase (vars : Vars) (s : State) : Branch → State
  | Branch.parentDone => { s with exitPath := some ExitPath.parentReturn }
  | Branch.ctxDone =>
    if s.done > 1 then { s with exitPath := some ExitPath.ctxGuardReturn }
    else { s with exitPath := some ExitPath.ctxFallThrough }
  | Branch.sig =>
    match s.sigCh with
    | [] => s
    | sg :: rest =>
      let s1 := { s with sigCh := rest, received := s.received ++ [sg] }
      let s2 := { s1 with retries := s1.retries + 1 }
      let s3 := cancel s2
      if s3.retries = 1 then
        logPrint vars.Log (msgGraceful sg) ExitPath.sigFirst s3
      else if s3.retries ≥ vars.TerminateLimit then
        logPrint vars.Log (msgAbort sg s3.retries) ExitPath.sigAbortReturn s3
      else
        logPrint vars.Log (msgPlain sg) ExitPath.sigPlain s3

/-- The deferred `signal.Stop(sigCh)`. -/
def signalStop (s : State) : State :=
  { s with notified := false, teardown := s.teardown ++ [TeardownOp.stop] }

/-- The deferred `close(sigCh)`. -/
def closeSigCh (s : State) : State :=
  { s with chClosed := true, teardown := s.teardown ++ [TeardownOp.close] }

/-- The watcher goroutine once its `select` proceeds with case `br`:
`var retries int`, the case's body, then the deferred calls in reverse order of
their `defer` statements (`signal.Stop(sigCh)`, then `close(sigCh)`), and the
goroutine is over; the deferred calls run after a return and after a panic
alike. The goroutine's statements are taken as one step, placed where the
watcher reads shared state for the last time (the load of `done`, the receive
from `sigCh`). A signal that arrives after the receive and before `signal.Stop`
would sit in the buffer of the stopped, closed channel, which nothing reads;
the model leaves such states out. -/
def watcherRun (vars : Vars) (br : Branch) (s : State) : State :=
  let s0 := { s with retries := 0, selects := s.selects + 1 }
  let s1 := selectCase vars s0 br
  let s2 := closeSigCh (signalStop s1)
  { s2 with watcher := Watcher.exited }

/-- What can happen after `WithCancel` has returned. -/
inductive Event where
  /-- The caller invokes the returned cancel function. -/
  | callCancel
  /-- The parent context becomes done. -/
  | parentCancel
  /-- The process receives a signal. -/
  | deliver (sg : Signal)
  /-- The `select` of the watcher proceeds with a case. -/
  | watcher (br : Branch)
deriving DecidableEq, Repr

/-- One event. The watcher moves only while it is blocked in its `select` and
only with a case that can proceed; an event that cannot happen leaves the state
as it is. The events after a panic of the watcher are ones the program no longer
performs: the executions of the program are among those of the model. -/
def step (vars : Vars) (s : State) : Event → State
  | Event.callCancel => cancelFn s
  | Event.parentCancel => parentCancel s
  | Event.deliver sg => deliver sg s
  | Event.watcher br =>
    if s.watcher = Watcher.waiting ∧ ready s br = true then watcherRun vars br s
    else s

/-- An execution: the events in order. -/
def run (vars : Vars) (s : State) (es : List Event) : State :=
  es.foldl (step vars) s

/-- The signal `SIGINT`. -/
def SIGINT : Signal := { num := 2, name := "interrupt" }

/-- The signal `SIGTERM`. -/
def SIGTERM : Signal := { num := 15, name := "terminated" }

/-- What holds in every state of an execution that starts at `WithCancel`:
the derived context is done when the parent is, `sigCh` never holds more than
its capacity, and the watcher either still waits and has done nothing, or has
exited after one `select` case with both deferred calls run. -/
def Inv (s : State) : Prop :=
  (s.parentDone = true → s.ctxDone = true) ∧
  s.sigCh.length ≤ sigChCap ∧
  ((s.watcher = Watcher.waiting ∧ s.selects = 0 ∧ s.received = [] ∧ s.retries = 0 ∧
      s.log = [] ∧ s.teardown = [] ∧ s.notified = true ∧ s.chClosed = false ∧
      s.exitPath = none ∧ s.panicked = false) ∨
   (s.watcher = Watcher.exited ∧ s.selects = 1 ∧ s.received.length ≤ 1 ∧ s.retries ≤ 1 ∧
      (s.log = [] ∨ s.log = s.received.map msgGraceful) ∧
      s.teardown = [TeardownOp.stop, TeardownOp.close] ∧ s.notified = false ∧
      s.chClosed = true ∧ s.exitPath.isSome = true))

/-! ## Helper lemmas -/

theorem wrapInt32_of_range (x : Int) (h1 : -(2 ^ 31) ≤ x) (h2 : x < 2 ^ 31) :
    wrapInt32 x = x := by
  unfold wrapInt32
  omega

theorem wrapInt32_add_wrap (x y : Int) : wrapInt32 (wrapInt32 x + y) = wrapInt32 (x + y) := by
  unfold wrapInt32
  omega

theorem cancelFn_fields (s : State) :
    (cancelFn s).ctxDone = true ∧ (cancelFn s).done = wrapInt32 (s.done + 1) ∧
    (cancelFn s).parentDone = s.parentDone ∧ (cancelFn s).log = s.log ∧
    (cancelFn s).sigCh = s.sigCh ∧ (cancelFn s).watcher = s.watcher ∧
    (cancelFn s).sigs = s.sigs ∧ (cancelFn s).notified = s.notified := by
  simp [cancelFn, cancel, atomicAddInt32]

theorem wrapInt32_idem (x : Int) : wrapInt32 (wrapInt32 x) = wrapInt32 x := by
  unfold wrapInt32
  omega

theorem cancelN_done_wrap (n : Nat) (s : State) :
    wrapInt32 (cancelN n s).done = wrapInt32 (s.done + n) := by
  induction n with
  | zero => simp [cancelN]
  | succ k ih =>
    simp only [cancelN, (cancelFn_fields _).2.1, Nat.cast_succ]
    rw [wrapInt32_idem, ← wrapInt32_add_wrap, ih, wrapInt32_add_wrap]
    congr 1
    ring

theorem cancelN_done (n : Nat) (s : State) (h : 1 ≤ n) :
    (cancelN n s).done = wrapInt32 (s.done + n) := by
  cases n with
  | zero => omega
  | succ k =>
    have hk := cancelN_done_wrap (k + 1) s
    simp only [cancelN, (cancelFn_fields _).2.1, wrapInt32_idem] at hk
    simp only [cancelN, (cancelFn_fields _).2.1]
    exact hk

theorem cancelN_ctxDone (n : Nat) (s : State) (h : 1 ≤ n) : (cancelN n s).ctxDone = true := by
  cases n with
  | zero => omega
  | succ k => exact (cancelFn_fields _).1

theorem cancelN_frame (n : Nat) (s : State) :
    (cancelN n s).parentDone = s.parentDone ∧ (cancelN n s).log = s.log ∧
    (cancelN n s).sigCh = s.sigCh ∧ (cancelN n s).watcher = s.watcher ∧
    (cancelN n s).sigs = s.sigs ∧ (cancelN n s).notified = s.notified := by
  induction n with
  | zero => simp [cancelN]
  | succ k ih =>
    have h := cancelFn_fields (cancelN k s)
    simp only [cancelN]
    refine ⟨?_, ?_, ?_, ?_, ?_, ?_⟩
    · rw [h.2.2.1, ih.1]
    · rw [h.2.2.2.1, ih.2.1]
    · rw [h.2.2.2.2.1, ih.2.2.1]
    · rw [h.2.2.2.2.2.1, ih.2.2.2.1]
    · rw [h.2.2.2.2.2.2.1, ih.2.2.2.2.1]
    · rw [h.2.2.2.2.2.2.2, ih.2.2.2.2.2]

theorem cancelN_teardown (n : Nat) (s : State) : (cancelN n s).teardown = s.teardown := by
  induction n with
  | zero => rfl
  | succ k ih =>
    simp only [cancelN]
    rw [← ih]
    rfl

theorem run_nil (vars : Vars) (s : State) : run vars s [] = s := rfl

theorem run_cons (vars : Vars) (s : State) (e : Event) (es : List Event) :
    run vars s (e :: es) = run vars (step vars s e) es := rfl

theorem run_append (vars : Vars) (s : State) (es fs : List Event) :
    run vars s (es ++ fs) = run vars (run vars s es) fs := by
  simp [run, List.foldl_append]

theorem inv_WithCancel (p : Bool) (sigs : List Signal) : Inv (WithCancel p sigs) := by
  simp [Inv, WithCancel, sigChCap]

theorem watcherRun_fields (vars : Vars) (br : Branch) (s : State) :
    (watcherRun vars br s).watcher = Watcher.exited ∧
    (watcherRun vars br s).selects = s.selects + 1 ∧
    (watcherRun vars br s).teardown = s.teardown ++ [TeardownOp.stop, TeardownOp.close] ∧
    (watcherRun vars br s).notified = false ∧
    (watcherRun vars br s).chClosed = true ∧
    (watcherRun vars br s).parentDone = s.parentDone ∧
    (watcherRun vars br s).done = s.done := by
  cases br with
  | parentDone => simp [watcherRun, selectCase, signalStop, closeSigCh]
  | ctxDone =>
    by_cases hd : s.done > 1 <;>
      simp [watcherRun, selectCase, signalStop, closeSigCh, hd]
  | sig =>
    cases hch : s.sigCh with
    | nil => simp [watcherRun, selectCase, signalStop, closeSigCh, hch]
    | cons sg rest =>
      cases hl : vars.Log <;>
        simp [watcherRun, selectCase, logPrint, signalStop, closeSigCh, hch, cancel, hl]

theorem watcherRun_sig (vars : Vars) (s : State) (sg : Signal) (rest : List Signal)
    (hch : s.sigCh = sg :: rest) :
    (watcherRun vars Branch.sig s).ctxDone = true ∧
    (watcherRun vars Branch.sig s).retries = 1 ∧
    (watcherRun vars Branch.sig s).received = s.received ++ [sg] ∧
    ((watcherRun vars Branch.sig s).log = s.log ∨
      (watcherRun vars Branch.sig s).log = s.log ++ [msgGraceful sg]) ∧
    (watcherRun vars Branch.sig s).sigCh = rest ∧
    (watcherRun vars Branch.sig s).exitPath.isSome = true := by
  cases hl : vars.Log <;>
    simp [watcherRun, selectCase, logPrint, signalStop, closeSigCh, hch, cancel, hl]

theorem watcherRun_sig_printing (vars : Vars) (s : State) (sg : Signal) (rest : List Signal)
    (hch : s.sigCh = sg :: rest) (hl : vars.Log = Logger.printing) :
    (watcherRun vars Branch.sig s).log = s.log ++ [msgGraceful sg] ∧
    (watcherRun vars Branch.sig s).exitPath = some ExitPath.sigFirst ∧
    (watcherRun vars Branch.sig s).panicked = s.panicked := by
  simp [watcherRun, selectCase, logPrint, signalStop, closeSigCh, hch, cancel, hl]

theorem watcherRun_sig_stdZero (vars : Vars) (s : State) (sg : Signal) (rest : List Signal)
    (hch : s.sigCh = sg :: rest) (hl : vars.Log = Logger.stdZero) :
    (watcherRun vars Branch.sig s).log = s.log ∧
    (watcherRun vars Branch.sig s).exitPath = some ExitPath.printPanic ∧
    (watcherRun vars Branch.sig s).panicked = true := by
  simp [watcherRun, selectCase, logPrint, signalStop, closeSigCh, hch, cancel, hl]

theorem watcherRun_noSig (vars : Vars) (br : Branch) (s : State) (hbr : br ≠ Branch.sig) :
    (watcherRun vars br s).ctxDone = s.ctxDone ∧
    (watcherRun vars br s).retries = 0 ∧
    (watcherRun vars br s).received = s.received ∧
    (watcherRun vars br s).log = s.log ∧
    (watcherRun vars br s).sigCh = s.sigCh ∧
    (watcherRun vars br s).exitPath.isSome = true := by
  cases br with
  | parentDone => simp [watcherRun, selectCase, signalStop, closeSigCh]
  | ctxDone =>
    by_cases hd : s.done > 1 <;>
      simp [watcherRun, selectCase, signalStop, closeSigCh, hd]
  | sig => exact absurd rfl hbr

theorem deliver_fields (sg : Signal) (s : State) :
    (deliver sg s).parentDone = s.parentDone ∧ (deliver sg s).ctxDone = s.ctxDone ∧
    (deliver sg s).done = s.done ∧ (deliver sg s).watcher = s.watcher ∧
    (deliver sg s).selects = s.selects ∧ (deliver sg s).received = s.received ∧
    (deliver sg s).retries = s.retries ∧ (deliver sg s).log = s.log ∧
    (deliver sg s).teardown = s.teardown ∧ (deliver sg s).notified = s.notified ∧
    (deliver sg s).chClosed = s.chClosed ∧ (deliver sg s).exitPath = s.exitPath ∧
    (deliver sg s).sigCh.length ≤ max s.sigCh.length sigChCap := by
  unfold deliver
  split
  · rename_i h
    simp only [Bool.and_eq_true, decide_eq_true_eq] at h
    simp only [List.length_append, List.length_singleton, true_and]
    omega
  · simp

theorem deliver_more (sg : Signal) (s : State) :
    (deliver sg s).panicked = s.panicked ∧ (deliver sg s).sigs = s.sigs := by
  unfold deliver
  split <;> simp

theorem ready_sig_cons (s : State) (h : ready s Branch.sig = true) :
    ∃ sg rest, s.sigCh = sg :: rest := by
  cases hch : s.sigCh with
  | nil => simp [ready, hch] at h
  | cons sg rest => exact ⟨sg, rest, rfl⟩

theorem inv_step (vars : Vars) (s : State) (e : Event) (h : Inv s) : Inv (step vars s e) := by
  obtain ⟨hpc, hcap, hw⟩ := h
  cases e with
  | callCancel =>
    refine ⟨fun _ => by simp [step, cancelFn, cancel], by simpa [step, cancelFn, cancel] using hcap, ?_⟩
    simpa [step, cancelFn, cancel] using hw
  | parentCancel =>
    refine ⟨fun _ => by simp [step, parentCancel], by simpa [step, parentCancel] using hcap, ?_⟩
    simpa [step, parentCancel] using hw
  | deliver sg =>
    have hd := deliver_fields sg s
    obtain ⟨h1, h2, _, h4, h5, h6, h7, h8, h9, h10, h11, h12, h13⟩ := hd
    refine ⟨?_, ?_, ?_⟩
    · simp only [step]
      rw [h1, h2]
      exact hpc
    · simp only [step]
      exact le_trans h13 (max_le hcap (le_refl _))
    · simp only [step]
      rw [h4, h5, h6, h7, h8, h9, h10, h11, h12, (deliver_more sg s).1]
      exact hw
  | watcher br =>
    simp only [step]
    split
    · rename_i hcond
      obtain ⟨hwait, hready⟩ := hcond
      have hf := watcherRun_fields vars br s
      obtain ⟨f1, f2, f3, f4, f5, f6, _⟩ := hf
      rcases hw with hw | hw
      · obtain ⟨_, w2, w3, _, w5, w6, _, _, _⟩ := hw
        by_cases hbr : br = Branch.sig
        · subst hbr
          obtain ⟨sg, rest, hch⟩ := ready_sig_cons s hready
          obtain ⟨g1, g2, g3, g4, g5, g6⟩ := watcherRun_sig vars s sg rest hch
          refine ⟨fun _ => g1, ?_, Or.inr ⟨f1, ?_, ?_, ?_, ?_, ?_, f4, f5, ?_⟩⟩
          · rw [g5]
            rw [hch] at hcap
            simp only [List.length_cons] at hcap
            omega
          · rw [f2, w2]
          · rw [g3, w3]
            simp
          · rw [g2]
          · rcases g4 with g4 | g4
            · exact Or.inl (by rw [g4, w5])
            · exact Or.inr (by rw [g4, g3, w5, w3]; simp)
          · rw [f3, w6]
            simp
          · exact g6
        · obtain ⟨g1, g2, g3, g4, g5, g6⟩ := watcherRun_noSig vars br s hbr
          refine ⟨?_, ?_, Or.inr ⟨f1, ?_, ?_, ?_, ?_, ?_, f4, f5, g6⟩⟩
          · rw [f6, g1]
            exact hpc
          · rw [g5]
            exact hcap
          · rw [f2, w2]
          · rw [g3, w3]
            simp
          · rw [g2]
            decide
          · exact Or.inl (by rw [g4, w5])
          · rw [f3, w6]
            simp
      · rw [hw.1] at hwait
        exact absurd hwait (by decide)
    · exact ⟨hpc, hcap, hw⟩

theorem inv_run (vars : Vars) (es : List Event) (s : State) (h : Inv s) : Inv (run vars s es) := by
  induction es generalizing s with
  | nil => exact h
  | cons e es ih => exact ih (step vars s e) (inv_step vars s e h)

theorem inv_reach (vars : Vars) (p : Bool) (sigs : List Signal) (es : List Event) :
    Inv (run vars (WithCancel p sigs) es) :=
  inv_run vars es _ (inv_WithCancel p sigs)

/-- Once the watcher has exited, no event changes what it has left behind. -/
theorem exited_step (vars : Vars) (s : State) (e : Event) (h : s.watcher = Watcher.exited) :
    (step vars s e).watcher = Watcher.exited ∧ (step vars s e).selects = s.selects ∧
    (step vars s e).received = s.received ∧ (step vars s e).retries = s.retries ∧
    (step vars s e).log = s.log ∧ (step vars s e).teardown = s.teardown ∧
    (step vars s e).exitPath = s.exitPath := by
  cases e with
  | callCancel => simp [step, cancelFn, cancel, h]
  | parentCancel => simp [step, parentCancel, h]
  | deliver sg =>
    obtain ⟨_, _, _, h4, h5, h6, h7, h8, h9, _, _, h12, _⟩ := deliver_fields sg s
    simp only [step]
    rw [h4, h5, h6, h7, h8, h9, h12]
    exact ⟨h, rfl, rfl, rfl, rfl, rfl, rfl⟩
  | watcher br => simp [step, h]

theorem exited_run (vars : Vars) (es : List Event) (s : State) (h : s.watcher = Watcher.exited) :
    (run vars s es).watcher = Watcher.exited ∧ (run vars s es).selects = s.selects ∧
    (run vars s es).received = s.received ∧ (run vars s es).retries = s.retries ∧
    (run vars s es).log = s.log ∧ (run vars s es).teardown = s.teardown ∧
    (run vars s es).exitPath = s.exitPath := by
  induction es generalizing s with
  | nil => exact ⟨h, rfl, rfl, rfl, rfl, rfl, rfl⟩
  | cons e es ih =>
    obtain ⟨a1, a2, a3, a4, a5, a6, a7⟩ := exited_step vars s e h
    obtain ⟨b1, b2, b3, b4, b5, b6, b7⟩ := ih (step vars s e) a1
    rw [run_cons]
    exact ⟨b1, b2.trans a2, b3.trans a3, b4.trans a4, b5.trans a5, b6.trans a6, b7.trans a7⟩

theorem step_watcher_ready (vars : Vars) (s : State) (br : Branch)
    (hw : s.watcher = Watcher.waiting) (hr : ready s br = true) :
    step vars s (Event.watcher br) = watcherRun vars br s := by
  simp [step, hw, hr]

theorem logPrint_teardown (Log : Logger) (text : String) (path : ExitPath) (s : State) :
    (logPrint Log text path s).teardown = s.teardown := by
  cases Log <;> rfl

theorem selectCase_teardown (vars : Vars) (s : State) (br : Branch) :
    (selectCase vars s br).teardown = s.teardown := by
  cases br with
  | parentDone => rfl
  | ctxDone =>
    by_cases hd : s.done > 1 <;> simp [selectCase, hd]
  | sig =>
    cases hch : s.sigCh with
    | nil => simp [selectCase, hch]
    | cons sg rest =>
      simp only [selectCase, hch]
      split_ifs <;> rw [logPrint_teardown] <;> rfl

theorem step_parentDone (vars : Vars) (s : State) (e : Event) (h : e ≠ Event.parentCancel) :
    (step vars s e).parentDone = s.parentDone := by
  cases e with
  | callCancel => exact (cancelFn_fields s).2.2.1
  | parentCancel => exact absurd rfl h
  | deliver sg => exact (deliver_fields sg s).1
  | watcher br =>
    simp only [step]
    split
    · exact (watcherRun_fields vars br s).2.2.2.2.2.1
    · rfl

theorem run_parentDone (vars : Vars) (es : List Event) (s : State)
    (h : ∀ e ∈ es, e ≠ Event.parentCancel) : (run vars s es).parentDone = s.parentDone := by
  induction es generalizing s with
  | nil => rfl
  | cons e es ih =>
    rw [run_cons, ih (step vars s e) (fun x hx => h x (List.mem_cons_of_mem e hx))]
    exact step_parentDone vars s e (h e (List.mem_cons_self e es))

theorem relays_iff (sigs : List Signal) (sg : Signal) :
    relays sigs sg = true ↔ (sigs = [] ∨ ∃ t ∈ sigs, t.num = sg.num) := by
  cases sigs with
  | nil => simp [relays]
  | cons a l => simp [relays]

theorem deliver_relayed (sg : Signal) (s : State) (hn : s.notified = true)
    (hf : s.sigCh.length < sigChCap) (h : s.sigs = [] ∨ ∃ t ∈ s.sigs, t.num = sg.num) :
    deliver sg s = { s with sigCh := s.sigCh ++ [sg] } := by
  have hr := (relays_iff s.sigs sg).2 h
  simp [deliver, hn, hr, hf]

theorem deliver_eq_self_iff (sg : Signal) (s : State) (hn : s.notified = true)
    (hf : s.sigCh.length < sigChCap) :
    deliver sg s = s ↔ (s.sigs ≠ [] ∧ ∀ t ∈ s.sigs, t.num ≠ sg.num) := by
  constructor
  · intro h
    by_cases hc : s.sigs = [] ∨ ∃ t ∈ s.sigs, t.num = sg.num
    · have hd := deliver_relayed sg s hn hf hc
      rw [hd] at h
      have hlen := congrArg (fun x => x.sigCh.length) h
      simp at hlen
    · push_neg at hc
      exact hc
  · intro h
    have hr : relays s.sigs sg = false := by
      cases hrel : relays s.sigs sg with
      | false => rfl
      | true =>
        rcases (relays_iff s.sigs sg).1 hrel with h0 | ⟨t, ht, hnum⟩
        · exact absurd h0 h.1
        · exact absurd hnum (h.2 t ht)
    simp [deliver, hr]

theorem watcherRun_sigs (vars : Vars) (br : Branch) (s : State) :
    (watcherRun vars br s).sigs = s.sigs := by
  cases br with
  | parentDone => rfl
  | ctxDone =>
    by_cases hd : s.done > 1 <;> simp [watcherRun, selectCase, signalStop, closeSigCh, hd]
  | sig =>
    cases hch : s.sigCh with
    | nil => simp [watcherRun, selectCase, signalStop, closeSigCh, hch]
    | cons sg rest =>
      cases hl : vars.Log <;>
        simp [watcherRun, selectCase, logPrint, signalStop, closeSigCh, hch, cancel, hl]

theorem step_sigs (vars : Vars) (s : State) (e : Event) : (step vars s e).sigs = s.sigs := by
  cases e with
  | callCancel => exact (cancelFn_fields s).2.2.2.2.2.2.1
  | parentCancel => rfl
  | deliver sg => exact (deliver_more sg s).2
  | watcher br =>
    simp only [step]
    split
    · exact watcherRun_sigs vars br s
    · rfl

theorem run_sigs (vars : Vars) (es : List Event) (s : State) : (run vars s es).sigs = s.sigs := by
  induction es generalizing s with
  | nil => rfl
  | cons e es ih => rw [run_cons, ih, step_sigs]

/-! ## The claims -/

/-- C1: while the parent is not done and the watcher waits, the signal case of
the watcher, taken with signal `sg` at the head of `sigCh`, whatever the package
variables `TerminateLimit` and `Log` hold, leaves the derived
context done and the counter `done` at the value it had before; the signal is
the one the watcher has read. -/
theorem signal_case_cancels_keeps_done (vars : Vars) (s : State) (sg : Signal)
    (rest : List Signal) (hp : s.parentDone = false) (hw : s.watcher = Watcher.waiting)
    (hch : s.sigCh = sg :: rest) :
    ready s Branch.sig = true ∧
    (step vars s (Event.watcher Branch.sig)).ctxDone = true ∧
    (step vars s (Event.watcher Branch.sig)).done = s.done ∧
    (step vars s (Event.watcher Branch.sig)).received = s.received ++ [sg] ∧
    (step vars s (Event.watcher Branch.sig)).parentDone = false := by
  have hr : ready s Branch.sig = true := by simp [ready, hch]
  have hs : step vars s (Event.watcher Branch.sig) = watcherRun vars Branch.sig s := by
    simp [step, hw, hr]
  obtain ⟨g1, _, g3, _, _, _⟩ := watcherRun_sig vars s sg rest hch
  obtain ⟨_, _, _, _, _, f6, f7⟩ := watcherRun_fields vars Branch.sig s
  rw [hs]
  exact ⟨hr, g1, f7, g3, f6.trans hp⟩

theorem signal_case_cancels_keeps_done_witness :
    (deliver SIGINT (WithCancel false [SIGINT])).parentDone = false ∧
    (step (Vars.mk 1024 Logger.printing) (deliver SIGINT (WithCancel false [SIGINT]))
      (Event.watcher Branch.sig)).ctxDone = true ∧
    (step (Vars.mk 1024 Logger.printing) (deliver SIGINT (WithCancel false [SIGINT]))
      (Event.watcher Branch.sig)).done = 0 :=
  ⟨by decide,
   (signal_case_cancels_keeps_done (Vars.mk 1024 Logger.printing) (deliver SIGINT (WithCancel false [SIGINT])) SIGINT []
      (by decide) (by decide) (by decide)).2.1,
   (signal_case_cancels_keeps_done (Vars.mk 1024 Logger.printing) (deliver SIGINT (WithCancel false [SIGINT])) SIGINT []
      (by decide) (by decide) (by decide)).2.2.1⟩

/-- C2, as the claim states it, fails: after 2^31 invocations of the returned
cancel function the `int32` counter `done` has wrapped around to -2^31 and does
not equal the number of invocations. -/
theorem cancel_counter_wraps :
    (cancelN (2 ^ 31) (WithCancel false [])).done = -(2 ^ 31) ∧
    (cancelN (2 ^ 31) (WithCancel false [])).done ≠ ((2 ^ 31 : Nat) : Int) := by
  have h := cancelN_done (2 ^ 31) (WithCancel false []) (by norm_num)
  have h0 : (WithCancel false []).done = 0 := rfl
  rw [h0] at h
  have hv : wrapInt32 (0 + ((2 ^ 31 : Nat) : Int)) = -(2 ^ 31) := by
    unfold wrapInt32
    norm_num
  rw [hv] at h
  refine ⟨h, ?_⟩
  rw [h]
  norm_num

/-- C2, amended: for every parent, every signal set and every n >= 1, after n
invocations of the returned cancel function the derived context is done (after
the first invocation already, and after each further one), every invocation
adds one to `done` in 32-bit two's complement, so `done` is n wrapped to `int32`,
and it equals n as long as n < 2^31. -/
theorem cancel_idempotent_counts (p : Bool) (sigs : List Signal) (n : Nat) (h : 1 ≤ n) :
    (cancelN 1 (WithCancel p sigs)).ctxDone = true ∧
    (∀ k, 1 ≤ k → k ≤ n → (cancelN k (WithCancel p sigs)).ctxDone = true) ∧
    (∀ k, (cancelN (k + 1) (WithCancel p sigs)).done =
      wrapInt32 ((cancelN k (WithCancel p sigs)).done + 1)) ∧
    (cancelN n (WithCancel p sigs)).done = wrapInt32 n ∧
    (n < 2 ^ 31 → (cancelN n (WithCancel p sigs)).done = n) := by
  have hd := cancelN_done n (WithCancel p sigs) h
  have h0 : (WithCancel p sigs).done = 0 := rfl
  rw [h0, zero_add] at hd
  refine ⟨cancelN_ctxDone 1 _ (le_refl 1), fun k hk _ => cancelN_ctxDone k _ hk,
    fun k => (cancelFn_fields _).2.1, hd, fun hn => ?_⟩
  rw [hd]
  apply wrapInt32_of_range
  · have : (0 : Int) ≤ (n : Int) := Int.ofNat_nonneg n
    omega
  · exact_mod_cast hn

theorem cancel_idempotent_counts_witness :
    (cancelN 3 (WithCancel false [])).ctxDone = true ∧
    (cancelN 3 (WithCancel false [])).done = 3 := by
  have h := cancel_idempotent_counts false [] 3 (by decide)
  exact ⟨h.2.1 3 (by decide) (by decide), h.2.2.2.2 (by norm_num)⟩

/-- C3: a parent that is done when `WithCancel` is called gives a derived
context that is done on return, with no signal read and no call of the cancel
function; in every execution the derived context is done whenever the parent is,
and it is done once the parent becomes done; the parent-done case of the
watcher leaves the derived context as it found it. -/
theorem derived_done_with_parent (vars : Vars) (p : Bool) (sigs : List Signal)
    (es : List Event) (s : State) :
    ((WithCancel true sigs).ctxDone = true ∧ (WithCancel true sigs).done = 0 ∧
      (WithCancel true sigs).received = [] ∧ (WithCancel true sigs).sigCh = []) ∧
    ((run vars (WithCancel p sigs) es).parentDone = true →
      (run vars (WithCancel p sigs) es).ctxDone = true) ∧
    (run vars (WithCancel p sigs) (es ++ [Event.parentCancel])).ctxDone = true ∧
    (watcherRun vars Branch.parentDone s).ctxDone = s.ctxDone ∧
    (selectCase vars s Branch.parentDone).ctxDone = s.ctxDone := by
  refine ⟨⟨rfl, rfl, rfl, rfl⟩, (inv_reach vars p sigs es).1, ?_,
    (watcherRun_noSig vars Branch.parentDone s (by decide)).1, rfl⟩
  rw [run_append]
  rfl

theorem derived_done_with_parent_witness :
    (run (Vars.mk 1024 Logger.printing) (WithCancel false [SIGINT]) [Event.parentCancel]).parentDone = true ∧
    (run (Vars.mk 1024 Logger.printing) (WithCancel false [SIGINT]) [Event.parentCancel]).ctxDone = true := by
  have h := derived_done_with_parent (Vars.mk 1024 Logger.printing) false [SIGINT] [Event.parentCancel]
    (WithCancel false [SIGINT])
  exact ⟨by decide, h.2.1 (by decide)⟩

/-- The first signal with a `Logger` whose `Print` returns: for every signal
`sg` and every value of TerminateLimit, when the watcher of an execution started
at `WithCancel` reads its first signal `sg`, the lines printed through `Log` are
exactly the one line "received <sg>, graceful shutdown", and no later event adds
a line. -/
theorem first_signal_logs_graceful (vars : Vars) (p : Bool) (sigs : List Signal)
    (es fs : List Event) (sg : Signal) (rest : List Signal)
    (hl : vars.Log = Logger.printing)
    (hw : (run vars (WithCancel p sigs) es).watcher = Watcher.waiting)
    (hch : (run vars (WithCancel p sigs) es).sigCh = sg :: rest) :
    (run vars (WithCancel p sigs) es).log = [] ∧
    (run vars (WithCancel p sigs) (es ++ [Event.watcher Branch.sig])).log =
      ["received " ++ sg.name ++ ", graceful shutdown"] ∧
    (run vars (WithCancel p sigs) (es ++ [Event.watcher Branch.sig])).exitPath =
      some ExitPath.sigFirst ∧
    (run vars (WithCancel p sigs) (es ++ [Event.watcher Branch.sig])).panicked = false ∧
    (run vars (WithCancel p sigs) (es ++ [Event.watcher Branch.sig] ++ fs)).log =
      ["received " ++ sg.name ++ ", graceful shutdown"] := by
  have hinv := inv_reach vars p sigs es
  have hlog : (run vars (WithCancel p sigs) es).log = [] ∧
      (run vars (WithCancel p sigs) es).panicked = false := by
    rcases hinv.2.2 with h | h
    · exact ⟨h.2.2.2.2.1, h.2.2.2.2.2.2.2.2.2⟩
    · rw [h.1] at hw
      exact absurd hw (by decide)
  have hr : ready (run vars (WithCancel p sigs) es) Branch.sig = true := by simp [ready, hch]
  have hs : run vars (WithCancel p sigs) (es ++ [Event.watcher Branch.sig]) =
      watcherRun vars Branch.sig (run vars (WithCancel p sigs) es) := by
    rw [run_append, run_cons, run_nil]
    exact step_watcher_ready vars _ Branch.sig hw hr
  obtain ⟨g4, g6, g7⟩ := watcherRun_sig_printing vars _ sg rest hch hl
  obtain ⟨f1, _⟩ := watcherRun_fields vars Branch.sig (run vars (WithCancel p sigs) es)
  have hone : (run vars (WithCancel p sigs) (es ++ [Event.watcher Branch.sig])).log =
      ["received " ++ sg.name ++ ", graceful shutdown"] := by
    rw [hs, g4, hlog.1]
    rfl
  refine ⟨hlog.1, hone, by rw [hs, g6], by rw [hs, g7]; exact hlog.2, ?_⟩
  rw [run_append, (exited_run vars fs _ (by rw [hs]; exact f1)).2.2.2.2.1]
  exact hone

theorem first_signal_logs_graceful_witness :
    (run (Vars.mk 1 Logger.printing) (WithCancel false [SIGTERM])
      ([Event.deliver SIGTERM] ++ [Event.watcher Branch.sig] ++
        [Event.deliver SIGTERM, Event.watcher Branch.sig])).log =
      ["received " ++ SIGTERM.name ++ ", graceful shutdown"] :=
  (first_signal_logs_graceful (Vars.mk 1 Logger.printing) false [SIGTERM] [Event.deliver SIGTERM]
    [Event.deliver SIGTERM, Event.watcher Branch.sig] SIGTERM []
    rfl (by decide) (by decide)).2.2.2.2

/-- The first signal with `Log` left at `new(log.Logger)`: for every signal
`sg` and every value of TerminateLimit, when the watcher of an execution started
at `WithCancel` reads its first signal `sg`, the derived context is cancelled,
`Log.Print` panics, no line is printed then or later, and the deferred calls
have run. -/
theorem first_signal_zero_logger_panics (vars : Vars) (p : Bool) (sigs : List Signal)
    (es fs : List Event) (sg : Signal) (rest : List Signal)
    (hl : vars.Log = Logger.stdZero)
    (hw : (run vars (WithCancel p sigs) es).watcher = Watcher.waiting)
    (hch : (run vars (WithCancel p sigs) es).sigCh = sg :: rest) :
    (run vars (WithCancel p sigs) (es ++ [Event.watcher Branch.sig])).log = [] ∧
    (run vars (WithCancel p sigs) (es ++ [Event.watcher Branch.sig])).panicked = true ∧
    (run vars (WithCancel p sigs) (es ++ [Event.watcher Branch.sig])).exitPath =
      some ExitPath.printPanic ∧
    (run vars (WithCancel p sigs) (es ++ [Event.watcher Branch.sig])).ctxDone = true ∧
    (run vars (WithCancel p sigs) (es ++ [Event.watcher Branch.sig])).teardown =
      [TeardownOp.stop, TeardownOp.close] ∧
    (run vars (WithCancel p sigs) (es ++ [Event.watcher Branch.sig] ++ fs)).log = [] := by
  have hinv := inv_reach vars p sigs es
  have hlog : (run vars (WithCancel p sigs) es).log = [] ∧
      (run vars (WithCancel p sigs) es).teardown = [] := by
    rcases hinv.2.2 with h | h
    · exact ⟨h.2.2.2.2.1, h.2.2.2.2.2.1⟩
    · rw [h.1] at hw
      exact absurd hw (by decide)
  have hr : ready (run vars (WithCancel p sigs) es) Branch.sig = true := by simp [ready, hch]
  have hs : run vars (WithCancel p sigs) (es ++ [Event.watcher Branch.sig]) =
      watcherRun vars Branch.sig (run vars (WithCancel p sigs) es) := by
    rw [run_append, run_cons, run_nil]
    exact step_watcher_ready vars _ Branch.sig hw hr
  obtain ⟨g4, g6, g7⟩ := watcherRun_sig_stdZero vars _ sg rest hch hl
  obtain ⟨g1, _⟩ := watcherRun_sig vars _ sg rest hch
  obtain ⟨f1, _, f3, _⟩ := watcherRun_fields vars Branch.sig (run vars (WithCancel p sigs) es)
  have hnone : (run vars (WithCancel p sigs) (es ++ [Event.watcher Branch.sig])).log = [] := by
    rw [hs, g4, hlog.1]
  refine ⟨hnone, by rw [hs, g7], by rw [hs, g6], by rw [hs, g1], ?_, ?_⟩
  · rw [hs, f3, hlog.2]
    rfl
  · rw [run_append, (exited_run vars fs _ (by rw [hs]; exact f1)).2.2.2.2.1]
    exact hnone

theorem first_signal_zero_logger_panics_witness :
    (run (Vars.mk 1 Logger.stdZero) (WithCancel false [SIGTERM])
      ([Event.deliver SIGTERM] ++ [Event.watcher Branch.sig])).panicked = true :=
  (first_signal_zero_logger_panics (Vars.mk 1 Logger.stdZero) false [SIGTERM]
    [Event.deliver SIGTERM] [] SIGTERM [] rfl (by decide) (by decide)).2.1

/-- C4 on the code: with the package variables as declared (`TerminateLimit`
1024, `Log` the zero `log.Logger`), after `WithCancel(parent, SIGINT)` the first
`SIGINT` is read by the watcher, the derived context is cancelled, and the call
`Log.Print("received interrupt, graceful shutdown")` panics: no line is printed,
the deferred calls run and the process ends. -/
theorem first_signal_default_log_panics :
    (run defaultVars (WithCancel false [SIGINT])
      [Event.deliver SIGINT, Event.watcher Branch.sig]).received = [SIGINT] ∧
    (run defaultVars (WithCancel false [SIGINT])
      [Event.deliver SIGINT, Event.watcher Branch.sig]).ctxDone = true ∧
    (run defaultVars (WithCancel false [SIGINT])
      [Event.deliver SIGINT, Event.watcher Branch.sig]).log = [] ∧
    (run defaultVars (WithCancel false [SIGINT])
      [Event.deliver SIGINT, Event.watcher Branch.sig]).panicked = true ∧
    (run defaultVars (WithCancel false [SIGINT])
      [Event.deliver SIGINT, Event.watcher Branch.sig]).exitPath =
      some ExitPath.printPanic ∧
    (run defaultVars (WithCancel false [SIGINT])
      [Event.deliver SIGINT, Event.watcher Branch.sig]).teardown =
      [TeardownOp.stop, TeardownOp.close] := by
  decide

/-- C5 on the code: with TerminateLimit 3 and `SIGINT` received three times
after `WithCancel(parent, SIGINT)`, the watcher reads the first signal only;
with a `Logger` whose `Print` returns the log is the one graceful-shutdown line,
with `Log` left at `new(log.Logger)` it is empty, and in neither case is a plain
receipt line or an aborting line printed. -/
theorem three_signals_one_line :
    (run (Vars.mk 3 Logger.printing) (WithCancel false [SIGINT])
      [Event.deliver SIGINT, Event.watcher Branch.sig, Event.deliver SIGINT,
       Event.watcher Branch.sig, Event.deliver SIGINT, Event.watcher Branch.sig]).log =
      ["received interrupt, graceful shutdown"] ∧
    (run (Vars.mk 3 Logger.printing) (WithCancel false [SIGINT])
      [Event.deliver SIGINT, Event.watcher Branch.sig, Event.deliver SIGINT,
       Event.watcher Branch.sig, Event.deliver SIGINT, Event.watcher Branch.sig]).received =
      [SIGINT] ∧
    (run (Vars.mk 3 Logger.printing) (WithCancel false [SIGINT])
      [Event.deliver SIGINT, Event.watcher Branch.sig, Event.deliver SIGINT,
       Event.watcher Branch.sig, Event.deliver SIGINT, Event.watcher Branch.sig]).retries = 1 ∧
    (run (Vars.mk 3 Logger.printing) (WithCancel false [SIGINT])
      [Event.deliver SIGINT, Event.watcher Branch.sig, Event.deliver SIGINT,
       Event.watcher Branch.sig, Event.deliver SIGINT, Event.watcher Branch.sig]).exitPath =
      some ExitPath.sigFirst ∧
    (run (Vars.mk 3 Logger.stdZero) (WithCancel false [SIGINT])
      [Event.deliver SIGINT, Event.watcher Branch.sig, Event.deliver SIGINT,
       Event.watcher Branch.sig, Event.deliver SIGINT, Event.watcher Branch.sig]).log = [] ∧
    (run (Vars.mk 3 Logger.stdZero) (WithCancel false [SIGINT])
      [Event.deliver SIGINT, Event.watcher Branch.sig, Event.deliver SIGINT,
       Event.watcher Branch.sig, Event.deliver SIGINT, Event.watcher Branch.sig]).received =
      [SIGINT] ∧
    (run (Vars.mk 3 Logger.stdZero) (WithCancel false [SIGINT])
      [Event.deliver SIGINT, Event.watcher Branch.sig, Event.deliver SIGINT,
       Event.watcher Branch.sig, Event.deliver SIGINT, Event.watcher Branch.sig]).retries = 1 := by
  decide

/-- C6: whichever `select` case the waiting watcher of an execution takes, it
exits (by a return, or by the panic of `Log.Print` when `Log` is the zero
`log.Logger`) and the deferred calls run once each, `signal.Stop(sigCh)` before
`close(sigCh)`; nothing was torn down before and nothing is torn down again by
any later event. On any state at all (every value of `done`, every value of
`retries`, so every arm of the escalation switch) the case body followed by the
deferred calls adds exactly these two calls in this order. -/
theorem teardown_once_on_every_exit (vars : Vars) (p : Bool) (sigs : List Signal)
    (es fs : List Event) (br : Branch) (s0 : State)
    (hw : (run vars (WithCancel p sigs) es).watcher = Watcher.waiting)
    (hr : ready (run vars (WithCancel p sigs) es) br = true) :
    (run vars (WithCancel p sigs) es).teardown = [] ∧
    (run vars (WithCancel p sigs) (es ++ [Event.watcher br])).watcher = Watcher.exited ∧
    (run vars (WithCancel p sigs) (es ++ [Event.watcher br])).teardown =
      [TeardownOp.stop, TeardownOp.close] ∧
    (run vars (WithCancel p sigs) (es ++ [Event.watcher br])).notified = false ∧
    (run vars (WithCancel p sigs) (es ++ [Event.watcher br])).chClosed = true ∧
    (run vars (WithCancel p sigs) (es ++ [Event.watcher br] ++ fs)).teardown =
      [TeardownOp.stop, TeardownOp.close] ∧
    (run vars (WithCancel p sigs) (es ++ [Event.watcher br] ++ fs)).watcher =
      Watcher.exited ∧
    (closeSigCh (signalStop (selectCase vars s0 br))).teardown =
      s0.teardown ++ [TeardownOp.stop, TeardownOp.close] ∧
    (watcherRun vars br s0).watcher = Watcher.exited := by
  have hinv := inv_reach vars p sigs es
  have ht : (run vars (WithCancel p sigs) es).teardown = [] := by
    rcases hinv.2.2 with h | h
    · exact h.2.2.2.2.2.1
    · rw [h.1] at hw
      exact absurd hw (by decide)
  have hs : run vars (WithCancel p sigs) (es ++ [Event.watcher br]) =
      watcherRun vars br (run vars (WithCancel p sigs) es) := by
    rw [run_append, run_cons, run_nil]
    exact step_watcher_ready vars _ br hw hr
  obtain ⟨f1, _, f3, f4, f5, _, _⟩ := watcherRun_fields vars br (run vars (WithCancel p sigs) es)
  rw [ht, List.nil_append] at f3
  have hx := exited_run vars fs (run vars (WithCancel p sigs) (es ++ [Event.watcher br]))
    (by rw [hs]; exact f1)
  refine ⟨ht, by rw [hs]; exact f1, by rw [hs]; exact f3, by rw [hs]; exact f4,
    by rw [hs]; exact f5, ?_, ?_, ?_, (watcherRun_fields vars br s0).1⟩
  · rw [run_append, hx.2.2.2.2.2.1, hs]
    exact f3
  · rw [run_append]
    exact hx.1
  · simp [closeSigCh, signalStop, selectCase_teardown]

theorem teardown_once_on_every_exit_witness :
    (run (Vars.mk 1024 Logger.printing) (WithCancel false [SIGINT])
      ([Event.callCancel, Event.callCancel] ++ [Event.watcher Branch.ctxDone] ++
        [Event.deliver SIGINT, Event.watcher Branch.sig])).teardown =
      [TeardownOp.stop, TeardownOp.close] :=
  (teardown_once_on_every_exit (Vars.mk 1024 Logger.printing) false [SIGINT] [Event.callCancel, Event.callCancel]
    [Event.deliver SIGINT, Event.watcher Branch.sig] Branch.ctxDone (WithCancel false [])
    (by decide) (by decide)).2.2.2.2.2.1

/-- C7, as the claim states it, fails: after `WithCancel` with an empty signal
set and a parent that is not done, a received `SIGINT` is put on `sigCh`, the
signal case of the watcher can proceed, and taking it makes the derived context
done although the parent is not done and the cancel function was never called
(whichever `Logger` is in `Log`). -/
theorem empty_set_signal_reaches_watcher :
    (deliver SIGINT (WithCancel false [])).sigCh = [SIGINT] ∧
    ready (deliver SIGINT (WithCancel false [])) Branch.sig = true ∧
    (WithCancel false []).ctxDone = false ∧
    (run (Vars.mk 1024 Logger.printing) (WithCancel false [])
      [Event.deliver SIGINT, Event.watcher Branch.sig]).ctxDone = true ∧
    (run (Vars.mk 1024 Logger.printing) (WithCancel false [])
      [Event.deliver SIGINT, Event.watcher Branch.sig]).parentDone = false ∧
    (run (Vars.mk 1024 Logger.printing) (WithCancel false [])
      [Event.deliver SIGINT, Event.watcher Branch.sig]).done = 0 ∧
    (run (Vars.mk 1024 Logger.printing) (WithCancel false [])
      [Event.deliver SIGINT, Event.watcher Branch.sig]).exitPath = some ExitPath.sigFirst ∧
    (run defaultVars (WithCancel false [])
      [Event.deliver SIGINT, Event.watcher Branch.sig]).ctxDone = true ∧
    (run defaultVars (WithCancel false [])
      [Event.deliver SIGINT, Event.watcher Branch.sig]).received = [SIGINT] := by
  decide

/-- C7, amended: `WithCancel` with an empty signal set subscribes to every
signal. In every execution started with the empty set, a signal `sg` received
while the subscription is active and the slot of `sigCh` is free is put on
`sigCh`, the signal case of the watcher can proceed, and taking it makes the
derived context done with `sg` read, leaving `done` and the parent as they were.
On any state with the subscription active and a free slot, the signal is put on
the channel when the signal set is empty or lists its number, and it is kept off
the channel exactly when the signal set is not empty and does not list its
number. -/
theorem empty_set_relays_every_signal (vars : Vars) (p : Bool) (sg : Signal)
    (es : List Event) (s : State)
    (hn : (run vars (WithCancel p []) es).notified = true)
    (hfree : (run vars (WithCancel p []) es).sigCh = [])
    (hsn : s.notified = true) (hsf : s.sigCh.length < sigChCap) :
    (run vars (WithCancel p []) (es ++ [Event.deliver sg])).sigCh = [sg] ∧
    ready (run vars (WithCancel p []) (es ++ [Event.deliver sg])) Branch.sig = true ∧
    (run vars (WithCancel p [])
      (es ++ [Event.deliver sg, Event.watcher Branch.sig])).ctxDone = true ∧
    (run vars (WithCancel p [])
      (es ++ [Event.deliver sg, Event.watcher Branch.sig])).received = [sg] ∧
    (run vars (WithCancel p [])
      (es ++ [Event.deliver sg, Event.watcher Branch.sig])).done =
      (run vars (WithCancel p []) es).done ∧
    (run vars (WithCancel p [])
      (es ++ [Event.deliver sg, Event.watcher Branch.sig])).parentDone =
      (run vars (WithCancel p []) es).parentDone ∧
    ((s.sigs = [] ∨ ∃ t ∈ s.sigs, t.num = sg.num) →
      deliver sg s = { s with sigCh := s.sigCh ++ [sg] }) ∧
    (deliver sg s = s ↔ (s.sigs ≠ [] ∧ ∀ t ∈ s.sigs, t.num ≠ sg.num)) := by
  have hinv := inv_reach vars p [] es
  have hsigs : (run vars (WithCancel p []) es).sigs = [] := run_sigs vars es _
  have hwr : (run vars (WithCancel p []) es).watcher = Watcher.waiting ∧
      (run vars (WithCancel p []) es).received = [] := by
    rcases hinv.2.2 with h | h
    · exact ⟨h.1, h.2.2.1⟩
    · rw [h.2.2.2.2.2.2.1] at hn
      exact absurd hn (by decide)
  have hd : deliver sg (run vars (WithCancel p []) es) =
      { run vars (WithCancel p []) es with sigCh := [] ++ [sg] } := by
    have h := deliver_relayed sg (run vars (WithCancel p []) es) hn
      (by rw [hfree]; decide) (Or.inl hsigs)
    rw [hfree] at h
    exact h
  have hch : (deliver sg (run vars (WithCancel p []) es)).sigCh = sg :: [] := by rw [hd]; rfl
  have hw : (deliver sg (run vars (WithCancel p []) es)).watcher = Watcher.waiting := by
    rw [hd]
    exact hwr.1
  have hr : ready (deliver sg (run vars (WithCancel p []) es)) Branch.sig = true := by
    simp [ready, hch]
  have h1 : run vars (WithCancel p []) (es ++ [Event.deliver sg]) =
      deliver sg (run vars (WithCancel p []) es) := by
    rw [run_append, run_cons, run_nil]
    rfl
  have h2 : run vars (WithCancel p []) (es ++ [Event.deliver sg, Event.watcher Branch.sig]) =
      watcherRun vars Branch.sig (deliver sg (run vars (WithCancel p []) es)) := by
    rw [run_append, run_cons, run_cons, run_nil]
    exact step_watcher_ready vars _ Branch.sig hw hr
  obtain ⟨g1, _, g3, _⟩ := watcherRun_sig vars _ sg [] hch
  obtain ⟨_, _, _, _, _, f6, f7⟩ :=
    watcherRun_fields vars Branch.sig (deliver sg (run vars (WithCancel p []) es))
  obtain ⟨d1, _, d3, _, _, d6, _⟩ := deliver_fields sg (run vars (WithCancel p []) es)
  refine ⟨by rw [h1]; exact hch, by rw [h1]; exact hr, by rw [h2]; exact g1, ?_, ?_, ?_,
    deliver_relayed sg s hsn hsf, deliver_eq_self_iff sg s hsn hsf⟩
  · rw [h2, g3, d6, hwr.2]
    rfl
  · rw [h2, f7, d3]
  · rw [h2, f6, d1]

theorem empty_set_relays_every_signal_witness :
    (run defaultVars (WithCancel false [])
      ([Event.callCancel, Event.deliver SIGINT] ++
        [Event.deliver SIGTERM, Event.watcher Branch.sig])).received = [SIGINT] ∧
    (run defaultVars (WithCancel false [])
      ([] ++ [Event.deliver SIGTERM, Event.watcher Branch.sig])).ctxDone = true ∧
    deliver SIGTERM (cancelFn (WithCancel false [SIGINT, SIGTERM])) =
      { cancelFn (WithCancel false [SIGINT, SIGTERM]) with sigCh := [] ++ [SIGTERM] } ∧
    deliver SIGTERM (WithCancel false [SIGINT]) = WithCancel false [SIGINT] := by
  have h := empty_set_relays_every_signal defaultVars false SIGTERM []
    (cancelFn (WithCancel false [SIGINT, SIGTERM])) (by decide) (by decide) (by decide)
    (by decide)
  have h' := empty_set_relays_every_signal defaultVars false SIGTERM []
    (WithCancel false [SIGINT]) (by decide) (by decide) (by decide) (by decide)
  exact ⟨by decide, h.2.2.1, h.2.2.2.2.2.2.1 (Or.inr ⟨SIGTERM, by decide, rfl⟩),
    h'.2.2.2.2.2.2.2.2 ⟨by decide, by decide⟩⟩

/-- C8: `WithCancel` on a parent that is not done returns with the parent not
done; an execution in which nothing outside cancels the parent leaves it not
done; and on any state the returned cancel function (any number of times), the
watcher with any `select` case and the delivery of a signal leave the parent's
done state as it was. -/
theorem parent_untouched (vars : Vars) (sigs : List Signal) (es : List Event) (n : Nat)
    (br : Branch) (sg : Signal) (s : State) (h : ∀ e ∈ es, e ≠ Event.parentCancel) :
    (WithCancel false sigs).parentDone = false ∧
    (run vars (WithCancel false sigs) es).parentDone = false ∧
    (cancelN n s).parentDone = s.parentDone ∧
    (watcherRun vars br s).parentDone = s.parentDone ∧
    (step vars s (Event.watcher br)).parentDone = s.parentDone ∧
    (deliver sg s).parentDone = s.parentDone :=
  ⟨rfl, run_parentDone vars es _ h, (cancelN_frame n s).1,
    (watcherRun_fields vars br s).2.2.2.2.2.1,
    step_parentDone vars s (Event.watcher br) (by simp), (deliver_fields sg s).1⟩

theorem parent_untouched_witness :
    (run (Vars.mk 1024 Logger.printing) (WithCancel false [SIGINT])
      [Event.callCancel, Event.deliver SIGINT, Event.watcher Branch.sig,
       Event.callCancel]).parentDone = false :=
  (parent_untouched (Vars.mk 1024 Logger.printing) [SIGINT]
    [Event.callCancel, Event.deliver SIGINT, Event.watcher Branch.sig, Event.callCancel]
    2 Branch.sig SIGINT (WithCancel false []) (by decide)).2.1

/-- C9: for every N >= 1, after N invocations of the returned cancel function
and no signal, the derived-done case of the watcher can proceed and the signal
case cannot (the parent-done case only when the parent is done); taking the
derived-done case prints nothing, the watcher exits with its teardown done, and
log, exit and teardown are those of N = 1; further invocations print nothing
either. For 1 < N < 2^31 the watcher leaves through the `done > 1` return, for
N = 1 through the end of the `select`. -/
theorem repeated_cancel_exits_silently (vars : Vars) (p : Bool) (sigs : List Signal)
    (N M : Nat) (h : 1 ≤ N) :
    ready (cancelN N (WithCancel p sigs)) Branch.ctxDone = true ∧
    ready (cancelN N (WithCancel p sigs)) Branch.sig = false ∧
    ready (cancelN N (WithCancel p sigs)) Branch.parentDone = p ∧
    (step vars (cancelN N (WithCancel p sigs)) (Event.watcher Branch.ctxDone)).log = [] ∧
    (step vars (cancelN N (WithCancel p sigs)) (Event.watcher Branch.ctxDone)).watcher =
      Watcher.exited ∧
    (step vars (cancelN N (WithCancel p sigs)) (Event.watcher Branch.ctxDone)).teardown =
      [TeardownOp.stop, TeardownOp.close] ∧
    (step vars (cancelN N (WithCancel p sigs)) (Event.watcher Branch.ctxDone)).log =
      (step vars (cancelN 1 (WithCancel p sigs)) (Event.watcher Branch.ctxDone)).log ∧
    (step vars (cancelN N (WithCancel p sigs)) (Event.watcher Branch.ctxDone)).watcher =
      (step vars (cancelN 1 (WithCancel p sigs)) (Event.watcher Branch.ctxDone)).watcher ∧
    (step vars (cancelN N (WithCancel p sigs)) (Event.watcher Branch.ctxDone)).teardown =
      (step vars (cancelN 1 (WithCancel p sigs)) (Event.watcher Branch.ctxDone)).teardown ∧
    (cancelN M (step vars (cancelN N (WithCancel p sigs))
      (Event.watcher Branch.ctxDone))).log = [] ∧
    (1 < N → N < 2 ^ 31 →
      (step vars (cancelN N (WithCancel p sigs)) (Event.watcher Branch.ctxDone)).exitPath =
        some ExitPath.ctxGuardReturn) ∧
    (step vars (cancelN 1 (WithCancel p sigs)) (Event.watcher Branch.ctxDone)).exitPath =
      some ExitPath.ctxFallThrough := by
  have key : ∀ k : Nat, 1 ≤ k →
      ready (cancelN k (WithCancel p sigs)) Branch.ctxDone = true ∧
      (step vars (cancelN k (WithCancel p sigs)) (Event.watcher Branch.ctxDone)).log = [] ∧
      (step vars (cancelN k (WithCancel p sigs)) (Event.watcher Branch.ctxDone)).watcher =
        Watcher.exited ∧
      (step vars (cancelN k (WithCancel p sigs)) (Event.watcher Branch.ctxDone)).teardown =
        [TeardownOp.stop, TeardownOp.close] ∧
      step vars (cancelN k (WithCancel p sigs)) (Event.watcher Branch.ctxDone) =
        watcherRun vars Branch.ctxDone (cancelN k (WithCancel p sigs)) := by
    intro k hk
    obtain ⟨_, c2, _, c4, _, _⟩ := cancelN_frame k (WithCancel p sigs)
    have hr : ready (cancelN k (WithCancel p sigs)) Branch.ctxDone = true :=
      cancelN_ctxDone k _ hk
    have hs := step_watcher_ready vars (cancelN k (WithCancel p sigs)) Branch.ctxDone
      (c4.trans rfl) hr
    obtain ⟨f1, _, f3, _⟩ := watcherRun_fields vars Branch.ctxDone (cancelN k (WithCancel p sigs))
    obtain ⟨_, _, _, g4, _, _⟩ :=
      watcherRun_noSig vars Branch.ctxDone (cancelN k (WithCancel p sigs)) (by decide)
    have ht : (cancelN k (WithCancel p sigs)).teardown = [] :=
      (cancelN_teardown k (WithCancel p sigs)).trans rfl
    refine ⟨hr, ?_, ?_, ?_, hs⟩
    · rw [hs, g4, c2]
      rfl
    · rw [hs]
      exact f1
    · rw [hs, f3, ht]
      rfl
  obtain ⟨k1, k2, k3, k4, k5⟩ := key N h
  obtain ⟨_, o2, o3, o4, o5⟩ := key 1 (le_refl 1)
  obtain ⟨c1, _, c3, _, _, _⟩ := cancelN_frame N (WithCancel p sigs)
  refine ⟨k1, ?_, ?_, k2, k3, k4, k2.trans o2.symm, k3.trans o3.symm, k4.trans o4.symm,
    ?_, ?_, ?_⟩
  · show (!(cancelN N (WithCancel p sigs)).sigCh.isEmpty) = false
    rw [c3]
    rfl
  · show (cancelN N (WithCancel p sigs)).parentDone = p
    rw [c1]
    rfl
  · rw [(cancelN_frame M _).2.1]
    exact k2
  · intro h1 h2
    have hd := cancelN_done N (WithCancel p sigs) h
    have h0 : (WithCancel p sigs).done = 0 := rfl
    rw [h0, zero_add, wrapInt32_of_range _ (by omega) (by exact_mod_cast h2)] at hd
    have hgt : (cancelN N (WithCancel p sigs)).done > 1 := by
      rw [hd]
      exact_mod_cast h1
    rw [k5]
    simp [watcherRun, selectCase, signalStop, closeSigCh, hgt]
  · rw [o5]
    have hd := cancelN_done 1 (WithCancel p sigs) (le_refl 1)
    have h0 : (WithCancel p sigs).done = 0 := rfl
    rw [h0, zero_add, wrapInt32_of_range _ (by norm_num) (by norm_num)] at hd
    simp [watcherRun, selectCase, signalStop, closeSigCh, hd]

theorem repeated_cancel_exits_silently_witness :
    (step (Vars.mk 1024 Logger.printing) (cancelN 2 (WithCancel false [SIGINT])) (Event.watcher Branch.ctxDone)).log = [] ∧
    (step (Vars.mk 1024 Logger.printing) (cancelN 2 (WithCancel false [SIGINT]))
      (Event.watcher Branch.ctxDone)).exitPath = some ExitPath.ctxGuardReturn := by
  have h := repeated_cancel_exits_silently (Vars.mk 1024 Logger.printing) false [SIGINT] 2 0 (by decide)
  exact ⟨h.2.2.2.1, h.2.2.2.2.2.2.2.2.2.2.1 (by decide) (by norm_num)⟩

/-- C10: in every execution started at `WithCancel`, for every TerminateLimit,
the watcher has taken at most one `select` case, has read at most one signal,
`retries` is at most 1 and at most one line was printed; the watcher has exited
exactly when it has taken one case, and from then on no event brings it back to
waiting or changes the cases taken, the signals read, `retries` or the log. -/
theorem watcher_single_pass (vars : Vars) (p : Bool) (sigs : List Signal)
    (es fs : List Event) :
    (run vars (WithCancel p sigs) es).selects ≤ 1 ∧
    (run vars (WithCancel p sigs) es).received.length ≤ 1 ∧
    (run vars (WithCancel p sigs) es).retries ≤ 1 ∧
    (run vars (WithCancel p sigs) es).log.length ≤ 1 ∧
    ((run vars (WithCancel p sigs) es).watcher = Watcher.exited ↔
      (run vars (WithCancel p sigs) es).selects = 1) ∧
    ((run vars (WithCancel p sigs) es).watcher = Watcher.waiting ↔
      (run vars (WithCancel p sigs) es).selects = 0) ∧
    ((run vars (WithCancel p sigs) es).watcher = Watcher.exited →
      (run vars (WithCancel p sigs) (es ++ fs)).watcher = Watcher.exited ∧
      (run vars (WithCancel p sigs) (es ++ fs)).selects = 1 ∧
      (run vars (WithCancel p sigs) (es ++ fs)).received =
        (run vars (WithCancel p sigs) es).received ∧
      (run vars (WithCancel p sigs) (es ++ fs)).retries =
        (run vars (WithCancel p sigs) es).retries ∧
      (run vars (WithCancel p sigs) (es ++ fs)).log = (run vars (WithCancel p sigs) es).log) := by
  have hinv := inv_reach vars p sigs es
  rcases hinv.2.2 with hw | hx
  · obtain ⟨w1, w2, w3, w4, w5, _⟩ := hw
    refine ⟨by omega, by simp [w3], by omega, by simp [w5], ?_, ?_, ?_⟩
    · rw [w1, w2]
      simp
    · rw [w1, w2]
      simp
    · intro hc
      rw [w1] at hc
      exact absurd hc (by decide)
  · obtain ⟨x1, x2, x3, x4, x5, _⟩ := hx
    have hlen : (run vars (WithCancel p sigs) es).log.length ≤ 1 := by
      rcases x5 with x5 | x5
      · simp [x5]
      · rw [x5, List.length_map]
        exact x3
    refine ⟨by omega, x3, x4, hlen, ?_, ?_, ?_⟩
    · rw [x1, x2]
      simp
    · rw [x1, x2]
      simp
    · intro _
      obtain ⟨e1, e2, e3, e4, e5, _⟩ := exited_run vars fs _ x1
      rw [run_append]
      exact ⟨e1, e2.trans x2, e3, e4, e5⟩

theorem watcher_single_pass_witness :
    (run (Vars.mk 2 Logger.printing) (WithCancel false [])
      ([Event.deliver SIGINT, Event.watcher Branch.sig] ++
        [Event.deliver SIGTERM, Event.watcher Branch.sig])).selects = 1 ∧
    (run (Vars.mk 2 Logger.printing) (WithCancel false [])
      ([Event.deliver SIGINT, Event.watcher Branch.sig] ++
        [Event.deliver SIGTERM, Event.watcher Branch.sig])).log =
      (run (Vars.mk 2 Logger.printing) (WithCancel false []) [Event.deliver SIGINT, Event.watcher Branch.sig]).log := by
  have h := (watcher_single_pass (Vars.mk 2 Logger.printing) false [] [Event.deliver SIGINT, Event.watcher Branch.sig]
    [Event.deliver SIGTERM, Event.watcher Branch.sig]).2.2.2.2.2.2 (by decide)
  exact ⟨h.2.1, h.2.2.2.2⟩

end Sigctx
